import Mathlib

/-!
# CommWatch core — shallow embedding and verification

Byte sequences (`Uint8Array`) are modelled as `List Nat` whose entries are
`< 256`.  JavaScript bitwise operators are modelled with the corresponding
`Nat` operations, with an explicit `% 2 ^ 32` wherever a JavaScript 32-bit
operation could overflow its operand range.
-/

set_option maxRecDepth 4096

namespace CommWatch

/-- Predicate `∀ b ∈ l, b < 256`: the list is a faithful image of a `Uint8Array`. -/
def Bytes (l : List Nat) : Prop := ∀ b ∈ l, b < 256

/-- Apply `f` to `c`, `n` times (the `for (j = 0; j < n; j++)` loops of the
CRC routines). -/
def iterateSteps (f : Nat → Nat) : Nat → Nat → Nat
  | 0, c => c
  | n + 1, c => iterateSteps f n (f c)

/-! ## CRC primitives (packages/proto-core/src/utils/crc.ts, class CRCCalculator) -/

namespace CRCCalculator

/-- One iteration of the inner loop of the static table initializer:
`crc = (crc & 0x8000) ? ((crc << 1) ^ 0x1021) : (crc << 1)`.
The values stay below `2 ^ 24`, so no 32-bit truncation occurs. -/
def crc16TableStep (crc : Nat) : Nat :=
  if crc &&& 0x8000 ≠ 0 then (crc <<< 1) ^^^ 0x1021 else crc <<< 1

/-- Entry `i` of the static table: start from `i << 8`, run eight steps,
store `crc & 0xFFFF`. -/
def crc16TableEntry (i : Nat) : Nat :=
  iterateSteps crc16TableStep 8 (i <<< 8) &&& 0xFFFF

/-- Embeds `CRC16_CCITT_FALSE_TABLE`, the 256-entry table. -/
def CRC16_CCITT_FALSE_TABLE : List Nat :=
  (List.range 256).map crc16TableEntry

/-- Embeds `CRCCalculator.crc16CcittFalse`. -/
def crc16CcittFalse (data : List Nat) : Nat :=
  data.foldl
    (fun crc byte =>
      ((crc <<< 8) ^^^
          CRC16_CCITT_FALSE_TABLE.getD (((crc >>> 8) ^^^ byte) &&& 0xFF) 0) &&&
        0xFFFF)
    0xFFFF

/-- One iteration of the inner loop of `crc32`:
`crc = (crc >>> 1) ^ (0xEDB88320 & -(crc & 1))`. -/
def crc32Step (crc : Nat) : Nat :=
  (crc >>> 1) ^^^ (if crc &&& 1 = 1 then 0xEDB88320 else 0)

/-- Embeds `CRCCalculator.crc32`. -/
def crc32 (data : List Nat) : Nat :=
  (data.foldl (fun crc byte => iterateSteps crc32Step 8 (crc ^^^ byte))
      0xFFFFFFFF) ^^^
    0xFFFFFFFF

end CRCCalculator

/-! ## UART burst simulator CRC
(packages/transports-uart/src/uart-simulator.ts, `UARTSimulator.calculateCrc16`) -/

namespace UARTSimulator

/-- One iteration of the inner loop:
`if (crc & 0x8000) crc = (crc << 1) ^ 0x1021; else crc = crc << 1;`.
The register is not masked between iterations; JavaScript's 32-bit
truncation of `<<` is made explicit with `% 2 ^ 32`. -/
def calcStep (crc : Nat) : Nat :=
  if crc &&& 0x8000 ≠ 0 then ((crc <<< 1) ^^^ 0x1021) % 2 ^ 32
  else (crc <<< 1) % 2 ^ 32

/-- Embeds `UARTSimulator.calculateCrc16`: `crc ^= byte << 8`, eight shift steps per
byte, and a final `crc & 0xFFFF`. -/
def calculateCrc16 (data : List Nat) : Nat :=
  (data.foldl (fun crc byte => iterateSteps calcStep 8 (crc ^^^ (byte <<< 8)))
      0xFFFF) &&&
    0xFFFF

end UARTSimulator

/-! ## Protocol data model (packages/proto-core/src/types/protocol.ts) -/

/-- Embeds `FrameError.severity`. -/
inductive Severity
  | warning
  | error
deriving DecidableEq, Repr

/-- Embeds `FrameError`. -/
structure FrameError where
  code : String
  message : String
  severity : Severity
deriving DecidableEq, Repr

/-- The dynamically typed `FrameField.value` slot, as a tagged variant.
`int` carries the signed 32-bit values JavaScript's `|`/`<<` produce. -/
inductive FieldValue
  | num (n : Nat)
  | int (i : Int)
  | str (s : String)
  | bool (b : Bool)
  | bytes (bs : List Nat)
deriving DecidableEq, Repr

/-- Embeds `FrameField`.  Its `scaling` is an exact rational standing for the source's
float constant. -/
structure FrameField where
  name : String
  value : FieldValue
  type : String
  raw : List Nat
  offset : Nat
  scaling : Option Rat := none
  unit : Option String := none
deriving DecidableEq, Repr

/-- Embeds `ChecksumInfo`. -/
structure ChecksumInfo where
  type : String
  expected : Nat
  calculated : Nat
  valid : Bool
deriving DecidableEq, Repr

/-- Embeds `DecodedFrame`; the `metadata` record is a name/value association list. -/
structure DecodedFrame where
  protocol : String
  fields : List FrameField
  checksum : Option ChecksumInfo := none
  metadata : List (String × FieldValue) := []
deriving DecidableEq, Repr

/-- JavaScript `n.toString(16)` for a natural number. -/
def hexString (n : Nat) : String := String.mk (Nat.toDigits 16 n)

/-- Reinterpret the low 32 bits of `n` as a signed 32-bit value, which is what
JavaScript's `|` and `<<` yield. -/
def toInt32 (n : Nat) : Int :=
  if n % 2 ^ 32 < 2 ^ 31 then ((n % 2 ^ 32 : Nat) : Int)
  else ((n % 2 ^ 32 : Nat) : Int) - 2 ^ 32

/-- Value `(rawValue / 4095.0) * 3.3` rendered with `toFixed(3)`.  The source
formats an IEEE double; we use exact rational rounding (identical on the
12-bit ADC range).  No claim inspects this string. -/
def voltageToFixed3 (rawValue : Nat) : String :=
  let th := (rawValue * 6600 + 4095) / 8190
  let frac := th % 1000
  toString (th / 1000) ++ "." ++
    (if frac < 10 then "00" else if frac < 100 then "0" else "") ++ toString frac

/-! ## EFuse codec (packages/decoders/src/efuse-decoder.ts) -/

namespace EFuseDecoder

def START_MARKER : Nat := 0xAA

def END_MARKER : Nat := 0xBB

def MIN_FRAME_LENGTH : Nat := 7

/-- Embeds `EFuseDecoder.decodeAdcPayload`. -/
def decodeAdcPayload (payload : List Nat) : List FrameField :=
  if payload.length < 2 then []
  else
    let rawValue := (payload.getD 0 0 <<< 8) ||| payload.getD 1 0
    [{ name := "adc_raw", value := .num rawValue, type := "uint16",
       raw := payload.take 2, offset := 0 },
     { name := "voltage", value := .str (voltageToFixed3 rawValue),
       type := "float", raw := payload.take 2, offset := 0,
       scaling := some (33 / 40950 : Rat), unit := some "V" }]

/-- Embeds `EFuseDecoder.decodeStatusPayload`. -/
def decodeStatusPayload (payload : List Nat) : List FrameField :=
  if payload.length < 1 then []
  else
    let status := payload.getD 0 0
    [{ name := "status", value := .num status, type := "uint8",
       raw := payload.take 1, offset := 0 },
     { name := "ready", value := .bool (status &&& 0x01 != 0), type := "uint8",
       raw := payload.take 1, offset := 0 },
     { name := "error", value := .bool (status &&& 0x02 != 0), type := "uint8",
       raw := payload.take 1, offset := 0 }]

/-- Embeds `EFuseDecoder.decodeConfigPayload`; the `|`-chain of shifted bytes is a
signed 32-bit value in JavaScript. -/
def decodeConfigPayload (payload : List Nat) : List FrameField :=
  if payload.length < 4 then []
  else
    [{ name := "config_value",
       value := .int (toInt32 ((payload.getD 0 0 <<< 24) |||
         (payload.getD 1 0 <<< 16) ||| (payload.getD 2 0 <<< 8) |||
         payload.getD 3 0)),
       type := "uint32", raw := payload.take 4, offset := 0 }]

/-- Embeds `EFuseDecoder.decodePayload`. -/
def decodePayload (type : Nat) (payload : List Nat) :
    Option (List FrameField) :=
  match type with
  | 0x01 => some (decodeAdcPayload payload)
  | 0x02 => some (decodeStatusPayload payload)
  | 0x03 => some (decodeConfigPayload payload)
  | _ => none

/-- Embeds `EFuseDecoder.decode`.  A slice `raw.slice(a, b)` is `(raw.drop a).take (b - a)`;
out-of-range indexing never happens on the paths that read bytes. -/
def decode (raw : List Nat) : Option DecodedFrame :=
  if raw.length < MIN_FRAME_LENGTH then none
  else if raw.getD 0 0 ≠ START_MARKER ∨
      raw.getD (raw.length - 1) 0 ≠ END_MARKER then none
  else
    let type := raw.getD 1 0
    let payloadLength := (raw.getD 2 0 <<< 8) ||| raw.getD 3 0
    let expectedLength := 1 + 1 + 2 + payloadLength + 2 + 1
    if raw.length ≠ expectedLength then none
    else
      let payloadEnd := 4 + payloadLength
      let payload := (raw.drop 4).take payloadLength
      let crcExpected := (raw.getD payloadEnd 0 <<< 8) |||
        raw.getD (payloadEnd + 1) 0
      let crcCalculated :=
        CRCCalculator.crc16CcittFalse ((raw.drop 1).take (payloadEnd - 1))
      let fields : List FrameField :=
        [{ name := "type", value := .num type, type := "uint8",
           raw := (raw.drop 1).take 1, offset := 1 },
         { name := "length", value := .num payloadLength, type := "uint16",
           raw := (raw.drop 2).take 2, offset := 2 },
         { name := "payload", value := .bytes payload, type := "bytes",
           raw := payload, offset := 4 }]
      some
        { protocol := "efuse",
          fields := fields ++ (decodePayload type payload).getD [],
          checksum := some
            { type := "crc16-ccitt-false", expected := crcExpected,
              calculated := crcCalculated,
              valid := decide (crcExpected = crcCalculated) },
          metadata := [("type", .num type),
            ("payloadLength", .num payloadLength)] }

/-- Embeds `EFuseDecoder.encode`.  The source throws on a missing `type` or
`payload` field and casts their values (`as number` / `as Uint8Array`);
both failure shapes are `none` here.  A `Uint8Array` store truncates the
`type` number to a byte. -/
def encode (fields : List FrameField) : Option (List Nat) :=
  match fields.find? (fun f => f.name == "type"),
      fields.find? (fun f => f.name == "payload") with
  | some typeField, some payloadField =>
    match typeField.value, payloadField.value with
    | .num type, .bytes payload =>
      let payloadLength := payload.length
      let header : List Nat :=
        [START_MARKER, type % 256, (payloadLength >>> 8) &&& 0xFF,
          payloadLength &&& 0xFF]
      let crc := CRCCalculator.crc16CcittFalse (header.drop 1 ++ payload)
      some (header ++ payload ++
        [(crc >>> 8) &&& 0xFF, crc &&& 0xFF, END_MARKER])
    | _, _ => none
  | _, _ => none

/-- Embeds `EFuseDecoder.validate`. -/
def validate (raw : List Nat) : Option FrameError :=
  if raw.length < MIN_FRAME_LENGTH then
    some { code := "FRAME_TOO_SHORT",
           message := "Frame too short: " ++ toString raw.length ++ " < " ++
             toString MIN_FRAME_LENGTH,
           severity := .error }
  else if raw.getD 0 0 ≠ START_MARKER then
    some { code := "INVALID_START_MARKER",
           message := "Invalid start marker: 0x" ++ hexString (raw.getD 0 0),
           severity := .error }
  else if raw.getD (raw.length - 1) 0 ≠ END_MARKER then
    some { code := "INVALID_END_MARKER",
           message := "Invalid end marker: 0x" ++
             hexString (raw.getD (raw.length - 1) 0),
           severity := .error }
  else
    let payloadLength := (raw.getD 2 0 <<< 8) ||| raw.getD 3 0
    let expectedLength := 1 + 1 + 2 + payloadLength + 2 + 1
    if raw.length ≠ expectedLength then
      some { code := "LENGTH_MISMATCH",
             message := "Length mismatch: expected " ++
               toString expectedLength ++ ", got " ++ toString raw.length,
             severity := .error }
    else
      let payloadEnd := 4 + payloadLength
      let crcExpected := (raw.getD payloadEnd 0 <<< 8) |||
        raw.getD (payloadEnd + 1) 0
      let crcCalculated :=
        CRCCalculator.crc16CcittFalse ((raw.drop 1).take (payloadEnd - 1))
      if crcExpected ≠ crcCalculated then
        some { code := "CRC_MISMATCH",
               message := "CRC mismatch: expected 0x" ++
                 hexString crcExpected ++ ", calculated 0x" ++
                 hexString crcCalculated,
               severity := .error }
      else none

end EFuseDecoder

/-! ## COBS codec (packages/decoders/src/cobs-decoder.ts) -/

namespace COBSDecoder

/-- The mutable loop state of `cobsEncode`: the output array, the index of the
pending code placeholder, and the running code. -/
structure EncState where
  result : List Nat
  codeIndex : Nat
  code : Nat
deriving Repr

/-- One iteration of the `for (const byte of data)` loop of `cobsEncode`. -/
def encStep (s : EncState) (byte : Nat) : EncState :=
  if byte = 0 then
    let r := s.result.set s.codeIndex s.code
    { result := r ++ [0], codeIndex := r.length, code := 1 }
  else
    let r := s.result ++ [byte]
    let code := s.code + 1
    if code = 0xFF then
      let r2 := r.set s.codeIndex code
      { result := r2 ++ [0], codeIndex := r2.length, code := 1 }
    else
      { result := r, codeIndex := s.codeIndex, code := code }

/-- Embeds `COBSDecoder.cobsEncode`: fold the loop over the data, then patch the
final code into the pending placeholder. -/
def cobsEncode (data : List Nat) : List Nat :=
  let s := data.foldl encStep { result := [0], codeIndex := 0, code := 1 }
  s.result.set s.codeIndex s.code

/-- Embeds `COBSDecoder.cobsDecode`.  The inner `for` copies
`min (code - 1) (bytes left)` bytes; a literal zero is emitted when
`code < 0xFF` and input remains. -/
def cobsDecode : List Nat → Option (List Nat)
  | [] => some []
  | code :: rest =>
    if code = 0 then none
    else
      match cobsDecode (rest.drop (code - 1)) with
      | none => none
      | some tail =>
        some (rest.take (code - 1) ++
          (if code < 0xFF ∧ rest.drop (code - 1) ≠ [] then [0] else []) ++ tail)
termination_by data => data.length
decreasing_by simp only [List.length_drop, List.length_cons]; omega

end COBSDecoder

/-! ## SLIP codec (packages/decoders/src/slip-decoder.ts) -/

namespace SLIPDecoder

def END : Nat := 0xC0

def ESC : Nat := 0xDB

def ESC_END : Nat := 0xDC

def ESC_ESC : Nat := 0xDD

/-- Embeds `SLIPDecoder.slipEncode`. -/
def slipEncode (data : List Nat) : List Nat :=
  (data.map fun byte =>
    if byte = END then [ESC, ESC_END]
    else if byte = ESC then [ESC, ESC_ESC]
    else [byte]).flatten ++ [END]

/-- The loop of `SLIPDecoder.slipDecode`, with the `escaped` flag explicit.
`END` breaks the loop (even in the escaped state — the source tests
`byte === END` first); a dangling `ESC` at end of input is dropped. -/
def slipDecodeGo : List Nat → Bool → Option (List Nat)
  | [], _ => some []
  | byte :: rest, escaped =>
    if byte = END then some []
    else if escaped then
      if byte = ESC_END then (slipDecodeGo rest false).map (END :: ·)
      else if byte = ESC_ESC then (slipDecodeGo rest false).map (ESC :: ·)
      else none
    else if byte = ESC then slipDecodeGo rest true
    else (slipDecodeGo rest false).map (byte :: ·)

/-- Embeds `SLIPDecoder.slipDecode`. -/
def slipDecode (data : List Nat) : Option (List Nat) :=
  slipDecodeGo data false

end SLIPDecoder

/-! ## CAN adapter (packages/transports-can/src/can-adapter.ts) -/

/-- Embeds `CanFilter` (proto-core); `extended?: boolean` is an `Option Bool`. -/
structure CanFilter where
  id : Nat
  mask : Nat
  extended : Option Bool := none
deriving DecidableEq, Repr

/-- Embeds `CANMessage`.  The `id` holds the 32-bit pattern; where JavaScript observes
it as a signed `Int32` the reinterpretation is made explicit. -/
structure CANMessage where
  id : Nat
  ext : Bool
  rtr : Bool
  data : List Nat
deriving DecidableEq, Repr

namespace CANHandle

/-- The per-filter test inside `setupListeners`:
`(msg.id & filter.mask) === (filter.id & filter.mask)` and
`filter.extended === undefined || filter.extended === msg.ext`. -/
def filterMatches (msg : CANMessage) (filter : CanFilter) : Bool :=
  decide ((msg.id &&& filter.mask) = (filter.id &&& filter.mask)) &&
    decide (filter.extended = none ∨ filter.extended = some msg.ext)

/-- Whether `setupListeners` delivers `msg` to the read callbacks: with a
non-empty filter list it requires `some`-match, otherwise it always
delivers. -/
def passesFilters (filters : List CanFilter) (msg : CANMessage) : Bool :=
  if filters.length > 0 then filters.any (filterMatches msg) else true

/-- Embeds `CANHandle.write`: `none` models the thrown `'Invalid CAN frame: too
short'`.  The id is assembled by `|` of shifted bytes (a 32-bit pattern;
JavaScript views it signed, which `ext = id > 0x7FF` observes), and
`data = frame.slice(5, 5 + dlc)` truncates to the bytes available. -/
def write (frame : List Nat) : Option CANMessage :=
  if frame.length < 5 then none
  else
    let id := (frame.getD 0 0 <<< 24) ||| (frame.getD 1 0 <<< 16) |||
      (frame.getD 2 0 <<< 8) ||| frame.getD 3 0
    let dlc := frame.getD 4 0
    some { id := id, ext := decide ((0x7FF : Int) < toInt32 id),
           rtr := false, data := (frame.drop 5).take dlc }

end CANHandle

/-! ## Specification-side definitions

Independent formulations, written from the specification's wording, used to
state the claims against the embedded code. -/

/-- The ASCII byte sequence of a string. -/
def asciiBytes (s : String) : List Nat := s.data.map Char.toNat

/-- The payload length an EFuse frame declares: big-endian `u16` at
offsets 2–3. -/
def efuseDeclaredLength (raw : List Nat) : Nat :=
  (raw.getD 2 0 <<< 8) ||| raw.getD 3 0

/-- The CRC an EFuse frame stores: big-endian `u16` right after the
payload. -/
def efuseStoredCrc (raw : List Nat) : Nat :=
  (raw.getD (4 + efuseDeclaredLength raw) 0 <<< 8) |||
    raw.getD (5 + efuseDeclaredLength raw) 0

/-- CRC-16/CCITT-FALSE over `type ++ length ++ payload`, the bytes at
offsets `1 .. 4 + length - 1`. -/
def efuseComputedCrc (raw : List Nat) : Nat :=
  CRCCalculator.crc16CcittFalse ((raw.drop 1).take (3 + efuseDeclaredLength raw))

/-- The specification's ordered list of validate checks: condition paired
with the error code it must yield. -/
def efuseCheckList (raw : List Nat) : List (Bool × String) :=
  [(decide (raw.length < 7), "FRAME_TOO_SHORT"),
   (decide (raw.getD 0 0 ≠ 0xAA), "INVALID_START_MARKER"),
   (decide (raw.getD (raw.length - 1) 0 ≠ 0xBB), "INVALID_END_MARKER"),
   (decide (raw.length ≠ 7 + efuseDeclaredLength raw), "LENGTH_MISMATCH"),
   (decide (efuseStoredCrc raw ≠ efuseComputedCrc raw), "CRC_MISMATCH")]

/-- The first failing check's code, per the specification's ordering. -/
def efuseFirstError (raw : List Nat) : Option String :=
  ((efuseCheckList raw).find? (fun c => c.1)).map (fun c => c.2)

/-- A structurally well-formed EFuse frame with a correct CRC. -/
def efuseWellFormed (raw : List Nat) : Prop :=
  7 ≤ raw.length ∧ raw.getD 0 0 = 0xAA ∧
    raw.getD (raw.length - 1) 0 = 0xBB ∧
    raw.length = 7 + efuseDeclaredLength raw ∧
    efuseStoredCrc raw = efuseComputedCrc raw

/-- Block-structured view of the COBS encoder: `block` is the current run of
copied non-zero bytes (always shorter than 254).  A zero byte or a full run
closes the block with its code; the end of input closes the last block. -/
def cobsGo : List Nat → List Nat → List Nat
  | block, [] => (block.length + 1) :: block
  | block, b :: rest =>
    if b = 0 then (block.length + 1) :: (block ++ cobsGo [] rest)
    else if block.length + 2 = 255 then 255 :: ((block ++ [b]) ++ cobsGo [] rest)
    else cobsGo (block ++ [b]) rest

/-- Patch the pending code into the placeholder (the two final lines of
`cobsEncode`). -/
def encFinish (s : COBSDecoder.EncState) : List Nat :=
  s.result.set s.codeIndex s.code

/-- The canonical EFuse frame with type `t`, payload `p` and stored CRC `c`. -/
def efuseFrameOf (t : Nat) (p : List Nat) (c : Nat) : List Nat :=
  [0xAA, t, (p.length >>> 8) &&& 255, p.length &&& 255] ++
    (p ++ [(c >>> 8) &&& 255, c &&& 255, 0xBB])

/-- The canonical per-iteration CRC-16 step on a 16-bit register. -/
def crcBitStep (c : Nat) : Nat :=
  if c.testBit 15 then ((c <<< 1) ^^^ 0x1021) % 2 ^ 16 else (c <<< 1) % 2 ^ 16

/-- Embeds `UARTSimulator.generateSampleFrame`, with the sinusoidal ADC sample
abstracted into the `adcValue` argument (the source computes
`2048 + Math.sin(sequence / 10) * 500` as a float; only the resulting
sample value enters the frame). -/
def generateSampleFrame (adcValue : Nat) : List Nat :=
  let payload := [(adcValue >>> 8) &&& 0xFF, adcValue &&& 0xFF]
  let crc := UARTSimulator.calculateCrc16 ([0x01, 0x00, 0x02] ++ payload)
  [0xAA, 0x01, 0x00, 0x02] ++
    (payload ++ [(crc >>> 8) &&& 0xFF, crc &&& 0xFF, 0xBB])


/-! ## Arithmetic and list helper lemmas -/

theorem and255_eq_mod (x : Nat) : x &&& 255 = x % 256 := by
  have h := Nat.and_pow_two_sub_one_eq_mod x 8
  norm_num at h
  exact h

theorem and65535_eq_mod (x : Nat) : x &&& 65535 = x % 65536 := by
  have h := Nat.and_pow_two_sub_one_eq_mod x 16
  norm_num at h
  exact h

/-- Splitting a 16-bit value into bytes and recombining by `(hi << 8) | lo`
is the identity. -/
theorem recompose16 (x : Nat) :
    ((x >>> 8) <<< 8) ||| x % 256 = x := by
  apply Nat.eq_of_testBit_eq
  intro i
  have hmod : (x % 256).testBit i = (decide (i < 8) && x.testBit i) := by
    rw [show (256 : Nat) = 2 ^ 8 by norm_num, Nat.testBit_mod_two_pow]
  by_cases hi : i < 8
  · simp [Nat.testBit_or, Nat.testBit_shiftLeft, hmod, hi, Nat.not_le.2 hi]
  · have h8 : 8 + (i - 8) = i := by omega
    simp [Nat.testBit_or, Nat.testBit_shiftLeft, Nat.testBit_shiftRight,
      hmod, hi, Nat.le_of_not_lt hi, h8]

/-- The masked variant used by the EFuse encoder:
`(((x >>> 8) & 0xFF) << 8) | (x & 0xFF) = x` for 16-bit `x`. -/
theorem recompose16_masked {x : Nat} (h : x < 65536) :
    (((x >>> 8) &&& 255) <<< 8) ||| (x &&& 255) = x := by
  have h1 : x >>> 8 &&& 255 = x >>> 8 := by
    rw [and255_eq_mod]
    apply Nat.mod_eq_of_lt
    rw [Nat.shiftRight_eq_div_pow]
    omega
  rw [h1, and255_eq_mod]
  exact recompose16 x

/-- The CRC-16 register is always a 16-bit value. -/
theorem crc16CcittFalse_lt (data : List Nat) :
    CRCCalculator.crc16CcittFalse data < 65536 := by
  unfold CRCCalculator.crc16CcittFalse
  have aux : ∀ (l : List Nat) (init : Nat), init < 65536 →
      l.foldl
        (fun crc byte =>
          ((crc <<< 8) ^^^
              CRCCalculator.CRC16_CCITT_FALSE_TABLE.getD
                (((crc >>> 8) ^^^ byte) &&& 0xFF) 0) &&&
            0xFFFF) init < 65536 := by
    intro l
    induction l with
    | nil => intro init h; simpa using h
    | cons x xs ih =>
      intro init h
      rw [List.foldl_cons]
      apply ih
      rw [and65535_eq_mod]
      exact Nat.mod_lt _ (by norm_num)
  exact aux data 0xFFFF (by norm_num)

theorem getD_append_left'' (l1 l2 : List Nat) (i : Nat) (h : i < l1.length) :
    (l1 ++ l2).getD i 0 = l1.getD i 0 := by
  simp [List.getD_eq_getElem?_getD, List.getElem?_append_left h]

theorem getD_append_right'' (l1 l2 : List Nat) (i : Nat) (h : l1.length ≤ i) :
    (l1 ++ l2).getD i 0 = l2.getD (i - l1.length) 0 := by
  simp [List.getD_eq_getElem?_getD, List.getElem?_append_right h]

theorem efuseFrameOf_length (t : Nat) (p : List Nat) (c : Nat) :
    (efuseFrameOf t p c).length = 7 + p.length := by
  simp [efuseFrameOf]
  omega

theorem efuseFrameOf_getD_last (t : Nat) (p : List Nat) (c : Nat) :
    (efuseFrameOf t p c).getD ((efuseFrameOf t p c).length - 1) 0 = 0xBB := by
  rw [efuseFrameOf_length]
  unfold efuseFrameOf
  rw [show 7 + p.length - 1 = 6 + p.length from by omega,
    getD_append_right'' _ _ _ (by simp; omega)]
  simp only [List.length_cons, List.length_nil]
  rw [show 6 + p.length - (0 + 1 + 1 + 1 + 1) = 2 + p.length from by omega,
    getD_append_right'' _ _ _ (by omega)]
  rw [show 2 + p.length - p.length = 2 from by omega]
  rfl

theorem efuseFrameOf_declared (t : Nat) (p : List Nat) (c : Nat)
    (hplen : p.length ≤ 65535) :
    ((efuseFrameOf t p c).getD 2 0 <<< 8) ||| (efuseFrameOf t p c).getD 3 0 =
      p.length := by
  have h2 : (efuseFrameOf t p c).getD 2 0 = (p.length >>> 8) &&& 255 := rfl
  have h3 : (efuseFrameOf t p c).getD 3 0 = p.length &&& 255 := rfl
  rw [h2, h3]
  exact recompose16_masked (by omega)

theorem efuseFrameOf_stored (t : Nat) (p : List Nat) (c : Nat)
    (hc : c < 65536) :
    ((efuseFrameOf t p c).getD (4 + p.length) 0 <<< 8) |||
      (efuseFrameOf t p c).getD (4 + p.length + 1) 0 = c := by
  have e1 : (efuseFrameOf t p c).getD (4 + p.length) 0 = (c >>> 8) &&& 255 := by
    unfold efuseFrameOf
    rw [getD_append_right'' _ _ _
      (by simp only [List.length_cons, List.length_nil]; omega)]
    simp only [List.length_cons, List.length_nil]
    rw [show 4 + p.length - (0 + 1 + 1 + 1 + 1) = p.length from by omega,
      getD_append_right'' _ _ _ (Nat.le_refl _), Nat.sub_self]
    rfl
  have e2 : (efuseFrameOf t p c).getD (4 + p.length + 1) 0 = c &&& 255 := by
    unfold efuseFrameOf
    rw [getD_append_right'' _ _ _
      (by simp only [List.length_cons, List.length_nil]; omega)]
    simp only [List.length_cons, List.length_nil]
    rw [show 4 + p.length + 1 - (0 + 1 + 1 + 1 + 1) = p.length + 1 from by omega,
      getD_append_right'' _ _ _ (by omega),
      show p.length + 1 - p.length = 1 from by omega]
    rfl
  rw [e1, e2]
  exact recompose16_masked hc

theorem efuseFrameOf_payload (t : Nat) (p : List Nat) (c : Nat) :
    ((efuseFrameOf t p c).drop 4).take p.length = p := by
  unfold efuseFrameOf
  rw [List.drop_left' (by rfl)]
  exact List.take_left' rfl

theorem efuseFrameOf_crcData (t : Nat) (p : List Nat) (c : Nat) :
    ((efuseFrameOf t p c).drop 1).take (4 + p.length - 1) =
      [t, (p.length >>> 8) &&& 255, p.length &&& 255] ++ p := by
  unfold efuseFrameOf
  rw [show ([0xAA, t, (p.length >>> 8) &&& 255, p.length &&& 255] ++
      (p ++ [(c >>> 8) &&& 255, c &&& 255, 0xBB])).drop 1 =
      [t, (p.length >>> 8) &&& 255, p.length &&& 255] ++
        (p ++ [(c >>> 8) &&& 255, c &&& 255, 0xBB]) from rfl]
  rw [List.take_append_eq_append_take]
  simp only [List.length_cons, List.length_nil]
  rw [List.take_of_length_le (by simp), List.take_append_eq_append_take,
    show 4 + p.length - 1 - (0 + 1 + 1 + 1) = p.length from by omega,
    List.take_of_length_le (Nat.le_refl _), Nat.sub_self]
  simp

/-- Decoding a canonical EFuse frame succeeds and yields its parts. -/
theorem efuse_decode_frameOf (t : Nat) (p : List Nat) (c : Nat)
    (hplen : p.length ≤ 65535) (hc : c < 65536) :
    EFuseDecoder.decode (efuseFrameOf t p c) =
      some { protocol := "efuse",
             fields :=
               [{ name := "type", value := .num t, type := "uint8",
                  raw := [t], offset := 1 },
                { name := "length", value := .num p.length, type := "uint16",
                  raw := [(p.length >>> 8) &&& 255, p.length &&& 255],
                  offset := 2 },
                { name := "payload", value := .bytes p, type := "bytes",
                  raw := p, offset := 4 }] ++
               (EFuseDecoder.decodePayload t p).getD [],
             checksum := some
               { type := "crc16-ccitt-false", expected := c,
                 calculated := CRCCalculator.crc16CcittFalse
                   ([t, (p.length >>> 8) &&& 255, p.length &&& 255] ++ p),
                 valid := decide (c = CRCCalculator.crc16CcittFalse
                   ([t, (p.length >>> 8) &&& 255, p.length &&& 255] ++ p)) },
             metadata := [("type", .num t), ("payloadLength", .num p.length)] } := by
  have hlen7 : ¬ (efuseFrameOf t p c).length < EFuseDecoder.MIN_FRAME_LENGTH := by
    rw [efuseFrameOf_length]
    show ¬ 7 + p.length < 7
    omega
  have hmark : ¬ ((efuseFrameOf t p c).getD 0 0 ≠ EFuseDecoder.START_MARKER ∨
      (efuseFrameOf t p c).getD ((efuseFrameOf t p c).length - 1) 0 ≠
        EFuseDecoder.END_MARKER) := by
    push_neg
    exact ⟨rfl, efuseFrameOf_getD_last t p c⟩
  unfold EFuseDecoder.decode
  rw [if_neg hlen7, if_neg hmark]
  simp only [efuseFrameOf_declared t p c hplen, efuseFrameOf_length]
  rw [if_neg (show ¬ 7 + p.length ≠ 1 + 1 + 2 + p.length + 2 + 1 from by omega)]
  simp only [efuseFrameOf_payload, efuseFrameOf_stored t p c hc,
    efuseFrameOf_crcData,
    show (efuseFrameOf t p c).getD 1 0 = t from rfl,
    show ((efuseFrameOf t p c).drop 1).take 1 = [t] from rfl,
    show ((efuseFrameOf t p c).drop 2).take 2 =
      [(p.length >>> 8) &&& 255, p.length &&& 255] from rfl]

/-! ### Lemmas about single-byte mutations of a frame -/

theorem getD_set_ne (l : List Nat) (i j v : Nat) (h : i ≠ j) :
    (l.set i v).getD j 0 = l.getD j 0 := by
  simp [List.getD_eq_getElem?_getD, List.getElem?_set_ne h]

theorem getD_set_self' (l : List Nat) (i v : Nat) (h : i < l.length) :
    (l.set i v).getD i 0 = v := by
  simp [List.getD_eq_getElem?_getD, List.getElem?_set_self h]

theorem getD_lt_of_bytes {l : List Nat} (h : Bytes l) (i : Nat) :
    l.getD i 0 < 256 := by
  rcases Nat.lt_or_ge i l.length with hi | hi
  · rw [List.getD_eq_getElem?_getD, List.getElem?_eq_getElem hi]
    exact h _ (List.getElem_mem hi)
  · rw [List.getD_eq_getElem?_getD, List.getElem?_eq_none hi]
    norm_num

/-- High-byte extraction from `(x << 8) | lo` when `lo` is a byte. -/
theorem or_shift_extract_hi {x lo : Nat} (h : lo < 256) :
    ((x <<< 8) ||| lo) >>> 8 = x := by
  apply Nat.eq_of_testBit_eq
  intro i
  have hlo : lo.testBit (8 + i) = false := by
    apply Nat.testBit_lt_two_pow
    calc lo < 2 ^ 8 := h
    _ ≤ 2 ^ (8 + i) := Nat.pow_le_pow_right (by norm_num) (by omega)
  simp [Nat.testBit_shiftRight, Nat.testBit_or, Nat.testBit_shiftLeft, hlo]

/-- Low-byte extraction from `(x << 8) | lo` when `lo` is a byte. -/
theorem or_shift_extract_lo {x lo : Nat} (h : lo < 256) :
    ((x <<< 8) ||| lo) % 256 = lo := by
  apply Nat.eq_of_testBit_eq
  intro i
  have hmod : (((x <<< 8) ||| lo) % 256).testBit i =
      (decide (i < 8) && ((x <<< 8) ||| lo).testBit i) := by
    rw [show (256 : Nat) = 2 ^ 8 by norm_num, Nat.testBit_mod_two_pow]
  by_cases hi : i < 8
  · simp [hmod, hi, Nat.testBit_or, Nat.testBit_shiftLeft, Nat.not_le.2 hi]
  · have hlo : lo.testBit i = false := by
      apply Nat.testBit_lt_two_pow
      calc lo < 2 ^ 8 := h
      _ ≤ 2 ^ i := Nat.pow_le_pow_right (by norm_num) (by omega)
    simp [hmod, hi, hlo]

/-- Characterizes `validate` in terms of the five structural conditions. -/
theorem validate_eq_none_iff (raw : List Nat) :
    EFuseDecoder.validate raw = none ↔
      ¬ raw.length < 7 ∧ raw.getD 0 0 = 0xAA ∧
      raw.getD (raw.length - 1) 0 = 0xBB ∧
      raw.length = 7 + efuseDeclaredLength raw ∧
      efuseStoredCrc raw = efuseComputedCrc raw := by
  have e3 : 4 + efuseDeclaredLength raw + 1 = 5 + efuseDeclaredLength raw := by
    omega
  have e4 : 4 + efuseDeclaredLength raw - 1 = 3 + efuseDeclaredLength raw := by
    omega
  have e5 : 1 + 1 + 2 + efuseDeclaredLength raw + 2 + 1 =
      7 + efuseDeclaredLength raw := by omega
  unfold EFuseDecoder.validate
  simp only [EFuseDecoder.MIN_FRAME_LENGTH, EFuseDecoder.START_MARKER,
    EFuseDecoder.END_MARKER,
    show (raw.getD 2 0 <<< 8) ||| raw.getD 3 0 = efuseDeclaredLength raw
      from rfl,
    e3, e4, e5]
  split_ifs with h1 h2 h3 h4 h5 <;>
    simp_all [efuseStoredCrc, efuseComputedCrc]

/-- When the structural checks pass but the CRC does not match, `validate`
reports `CRC_MISMATCH`. -/
theorem validate_code_of_crc_mismatch (raw : List Nat)
    (h1 : ¬ raw.length < 7) (h2 : raw.getD 0 0 = 0xAA)
    (h3 : raw.getD (raw.length - 1) 0 = 0xBB)
    (h4 : raw.length = 7 + efuseDeclaredLength raw)
    (h5 : efuseStoredCrc raw ≠ efuseComputedCrc raw) :
    (EFuseDecoder.validate raw).map FrameError.code = some "CRC_MISMATCH" := by
  have e3 : 4 + efuseDeclaredLength raw + 1 = 5 + efuseDeclaredLength raw := by
    omega
  have e4 : 4 + efuseDeclaredLength raw - 1 = 3 + efuseDeclaredLength raw := by
    omega
  have e5 : 1 + 1 + 2 + efuseDeclaredLength raw + 2 + 1 =
      7 + efuseDeclaredLength raw := by omega
  unfold EFuseDecoder.validate
  simp only [EFuseDecoder.MIN_FRAME_LENGTH, EFuseDecoder.START_MARKER,
    EFuseDecoder.END_MARKER,
    show (raw.getD 2 0 <<< 8) ||| raw.getD 3 0 = efuseDeclaredLength raw
      from rfl,
    e3, e4, e5]
  split_ifs with hh1 hh2 hh3 hh4 <;>
    simp_all [efuseStoredCrc, efuseComputedCrc]

/-- When the structural checks pass, `decode` succeeds and reports the CRC
comparison in `checksum.valid`. -/
theorem decode_checksum_of_struct (raw : List Nat)
    (h1 : ¬ raw.length < 7) (h2 : raw.getD 0 0 = 0xAA)
    (h3 : raw.getD (raw.length - 1) 0 = 0xBB)
    (h4 : raw.length = 7 + efuseDeclaredLength raw) :
    ∃ d, EFuseDecoder.decode raw = some d ∧
      d.checksum.map ChecksumInfo.valid =
        some (decide (efuseStoredCrc raw = efuseComputedCrc raw)) := by
  have e3 : 4 + efuseDeclaredLength raw + 1 = 5 + efuseDeclaredLength raw := by
    omega
  have e4 : 4 + efuseDeclaredLength raw - 1 = 3 + efuseDeclaredLength raw := by
    omega
  have e5 : 1 + 1 + 2 + efuseDeclaredLength raw + 2 + 1 =
      7 + efuseDeclaredLength raw := by omega
  unfold EFuseDecoder.decode
  simp only [EFuseDecoder.MIN_FRAME_LENGTH, EFuseDecoder.START_MARKER,
    EFuseDecoder.END_MARKER,
    show (raw.getD 2 0 <<< 8) ||| raw.getD 3 0 = efuseDeclaredLength raw
      from rfl,
    e3, e4, e5]
  rw [if_neg h1, if_neg (by push_neg; exact ⟨h2, h3⟩), if_neg (by omega)]
  exact ⟨_, rfl, by simp [efuseStoredCrc, efuseComputedCrc]⟩

/-! ### CRC refinement: bitwise simulator CRC versus table-driven CRC -/

theorem and65535_eq_mod' (x : Nat) : x &&& 65535 = x % 2 ^ 16 := by
  rw [show (65535 : Nat) = 2 ^ 16 - 1 from by norm_num]
  exact Nat.and_pow_two_sub_one_eq_mod x 16

theorem xor_mod_two_pow (x y n : Nat) :
    (x ^^^ y) % 2 ^ n = x % 2 ^ n ^^^ y % 2 ^ n := by
  apply Nat.eq_of_testBit_eq
  intro i
  simp only [Nat.testBit_mod_two_pow, Nat.testBit_xor]
  by_cases hi : i < n <;> simp [hi]

theorem shiftLeft_xor_distrib (x y n : Nat) :
    (x ^^^ y) <<< n = x <<< n ^^^ y <<< n := by
  apply Nat.eq_of_testBit_eq
  intro i
  simp only [Nat.testBit_shiftLeft, Nat.testBit_xor]
  by_cases hi : n ≤ i <;> simp [hi]

theorem xor_cancel_right (a b p : Nat) : (a ^^^ p) ^^^ (b ^^^ p) = a ^^^ b := by
  apply Nat.eq_of_testBit_eq
  intro j
  simp only [Nat.testBit_xor]
  cases ha : a.testBit j <;> cases hb : b.testBit j <;>
    cases hp : p.testBit j <;> rfl

theorem xor_right_comm (a b p : Nat) : (a ^^^ b) ^^^ p = (a ^^^ p) ^^^ b := by
  rw [Nat.xor_assoc, Nat.xor_comm b p, ← Nat.xor_assoc]

theorem and_32768_ne_zero_iff (x : Nat) :
    (x &&& 32768 ≠ 0) ↔ x.testBit 15 = true := by
  rw [show (32768 : Nat) = 2 ^ 15 from by norm_num, Nat.and_two_pow]
  cases h : x.testBit 15 <;> simp

theorem crcBitStep_lt (c : Nat) : crcBitStep c < 2 ^ 16 := by
  unfold crcBitStep
  split <;> exact Nat.mod_lt _ (by norm_num)

theorem iterate_crcBitStep_lt (k c : Nat) :
    iterateSteps crcBitStep (k + 1) c < 2 ^ 16 := by
  induction k generalizing c with
  | zero => exact crcBitStep_lt c
  | succ k ih => exact ih (crcBitStep c)

theorem shiftLeft_one_mod (s : Nat) :
    (s <<< 1) % 2 ^ 16 = ((s % 2 ^ 16) <<< 1) % 2 ^ 16 := by
  rw [Nat.shiftLeft_eq, Nat.shiftLeft_eq,
    show (2 : Nat) ^ 16 = 65536 from by norm_num]
  omega

/-- One simulator step agrees with the canonical step on the low 16 bits. -/
theorem calcStep_mod (s : Nat) :
    UARTSimulator.calcStep s % 2 ^ 16 = crcBitStep (s % 2 ^ 16) := by
  unfold UARTSimulator.calcStep crcBitStep
  have hbit : (s % 2 ^ 16).testBit 15 = s.testBit 15 := by
    rw [Nat.testBit_mod_two_pow]
    simp
  have hdvd : (2 : Nat) ^ 16 ∣ 2 ^ 32 := by norm_num
  by_cases h : s.testBit 15 = true
  · rw [if_pos ((and_32768_ne_zero_iff s).2 h), if_pos (by rw [hbit]; exact h),
      Nat.mod_mod_of_dvd _ hdvd, xor_mod_two_pow, xor_mod_two_pow,
      shiftLeft_one_mod]
  · rw [if_neg (fun hc => h ((and_32768_ne_zero_iff s).1 hc)),
      if_neg (by rw [hbit]; exact h), Nat.mod_mod_of_dvd _ hdvd,
      shiftLeft_one_mod]

theorem iterate_calcStep_mod (k s : Nat) :
    iterateSteps UARTSimulator.calcStep k s % 2 ^ 16 =
      iterateSteps crcBitStep k (s % 2 ^ 16) := by
  induction k generalizing s with
  | zero => rfl
  | succ k ih =>
    rw [show iterateSteps UARTSimulator.calcStep (k + 1) s =
        iterateSteps UARTSimulator.calcStep k (UARTSimulator.calcStep s)
        from rfl,
      show iterateSteps crcBitStep (k + 1) (s % 2 ^ 16) =
        iterateSteps crcBitStep k (crcBitStep (s % 2 ^ 16)) from rfl,
      ih, calcStep_mod]

/-- One table-builder step agrees with the canonical step on the low 16
bits. -/
theorem crc16TableStep_mod (s : Nat) :
    CRCCalculator.crc16TableStep s % 2 ^ 16 = crcBitStep (s % 2 ^ 16) := by
  unfold CRCCalculator.crc16TableStep crcBitStep
  have hbit : (s % 2 ^ 16).testBit 15 = s.testBit 15 := by
    rw [Nat.testBit_mod_two_pow]
    simp
  by_cases h : s.testBit 15 = true
  · rw [if_pos ((and_32768_ne_zero_iff s).2 h), if_pos (by rw [hbit]; exact h),
      xor_mod_two_pow, xor_mod_two_pow, shiftLeft_one_mod]
  · rw [if_neg (fun hc => h ((and_32768_ne_zero_iff s).1 hc)),
      if_neg (by rw [hbit]; exact h), shiftLeft_one_mod]

theorem iterate_tableStep_mod (k s : Nat) :
    iterateSteps CRCCalculator.crc16TableStep k s % 2 ^ 16 =
      iterateSteps crcBitStep k (s % 2 ^ 16) := by
  induction k generalizing s with
  | zero => rfl
  | succ k ih =>
    rw [show iterateSteps CRCCalculator.crc16TableStep (k + 1) s =
        iterateSteps CRCCalculator.crc16TableStep k
          (CRCCalculator.crc16TableStep s) from rfl,
      show iterateSteps crcBitStep (k + 1) (s % 2 ^ 16) =
        iterateSteps crcBitStep k (crcBitStep (s % 2 ^ 16)) from rfl,
      ih, crc16TableStep_mod]

theorem crc16TableEntry_eq (i : Nat) :
    CRCCalculator.crc16TableEntry i =
      iterateSteps crcBitStep 8 ((i <<< 8) % 2 ^ 16) := by
  unfold CRCCalculator.crc16TableEntry
  rw [and65535_eq_mod', iterate_tableStep_mod]

theorem table_getD (idx : Nat) (h : idx < 256) :
    CRCCalculator.CRC16_CCITT_FALSE_TABLE.getD idx 0 =
      CRCCalculator.crc16TableEntry idx := by
  unfold CRCCalculator.CRC16_CCITT_FALSE_TABLE
  rw [List.getD_eq_getElem?_getD, List.getElem?_map, List.getElem?_range h]
  rfl

/-- The canonical step is linear over XOR. -/
theorem crcBitStep_xor (x y : Nat) :
    crcBitStep (x ^^^ y) = crcBitStep x ^^^ crcBitStep y := by
  unfold crcBitStep
  rw [Nat.testBit_xor]
  cases hx : x.testBit 15 <;> cases hy : y.testBit 15 <;> simp only [bne]
  · show ((x ^^^ y) <<< 1) % 2 ^ 16 =
      (((x <<< 1)) % 2 ^ 16) ^^^ (((y <<< 1)) % 2 ^ 16)
    rw [← xor_mod_two_pow]
    congr 1
    rw [shiftLeft_xor_distrib]
  · show (((x ^^^ y) <<< 1) ^^^ 0x1021) % 2 ^ 16 =
      ((x <<< 1) % 2 ^ 16) ^^^ (((y <<< 1) ^^^ 0x1021) % 2 ^ 16)
    rw [← xor_mod_two_pow]
    congr 1
    rw [shiftLeft_xor_distrib, Nat.xor_assoc]
  · show (((x ^^^ y) <<< 1) ^^^ 0x1021) % 2 ^ 16 =
      (((x <<< 1) ^^^ 0x1021) % 2 ^ 16) ^^^ ((y <<< 1) % 2 ^ 16)
    rw [← xor_mod_two_pow]
    congr 1
    rw [shiftLeft_xor_distrib, xor_right_comm]
  · show ((x ^^^ y) <<< 1) % 2 ^ 16 =
      (((x <<< 1) ^^^ 0x1021) % 2 ^ 16) ^^^ (((y <<< 1) ^^^ 0x1021) % 2 ^ 16)
    rw [← xor_mod_two_pow]
    congr 1
    rw [xor_cancel_right, shiftLeft_xor_distrib]

theorem iterate_crcBitStep_xor (k x y : Nat) :
    iterateSteps crcBitStep k (x ^^^ y) =
      iterateSteps crcBitStep k x ^^^ iterateSteps crcBitStep k y := by
  induction k generalizing x y with
  | zero => rfl
  | succ k ih =>
    rw [show iterateSteps crcBitStep (k + 1) (x ^^^ y) =
        iterateSteps crcBitStep k (crcBitStep (x ^^^ y)) from rfl,
      show iterateSteps crcBitStep (k + 1) x =
        iterateSteps crcBitStep k (crcBitStep x) from rfl,
      show iterateSteps crcBitStep (k + 1) y =
        iterateSteps crcBitStep k (crcBitStep y) from rfl,
      crcBitStep_xor, ih]

theorem crcBitStep_small {x : Nat} (h : x < 2 ^ 15) : crcBitStep x = x * 2 := by
  unfold crcBitStep
  rw [if_neg (by simp [Nat.testBit_lt_two_pow h]), Nat.shiftLeft_eq]
  have h16 : (2 : Nat) ^ 16 = 65536 := by norm_num
  have h15 : (2 : Nat) ^ 15 = 32768 := by norm_num
  rw [pow_one]
  apply Nat.mod_eq_of_lt
  omega

theorem iterate_small (k : Nat) :
    ∀ x : Nat, x * 2 ^ k < 2 ^ 16 → iterateSteps crcBitStep k x = x <<< k := by
  induction k with
  | zero =>
    intro x _
    rw [Nat.shiftLeft_eq]
    simp [iterateSteps]
  | succ k ih =>
    intro x h
    have hh : x * 2 * 2 ^ k < 2 ^ 16 := by
      calc x * 2 * 2 ^ k = x * 2 ^ (k + 1) := by ring
      _ < 2 ^ 16 := h
    have hx15 : x < 2 ^ 15 := by
      have h1 : x * 2 ≤ x * 2 * 2 ^ k :=
        Nat.le_mul_of_pos_right _ (Nat.pos_pow_of_pos k (by norm_num))
      have h16 : (2 : Nat) ^ 16 = 65536 := by norm_num
      have h15 : (2 : Nat) ^ 15 = 32768 := by norm_num
      omega
    rw [show iterateSteps crcBitStep (k + 1) x =
        iterateSteps crcBitStep k (crcBitStep x) from rfl,
      crcBitStep_small hx15, ih (x * 2) hh, Nat.shiftLeft_eq, Nat.shiftLeft_eq]
    ring

/-- Absorbing a fresh message byte into the register splits into a table
index part and a low-byte part. -/
theorem xor_byte_decompose (t b : Nat) :
    t ^^^ (b <<< 8) = (((t >>> 8) ^^^ b) <<< 8) ^^^ t % 2 ^ 8 := by
  apply Nat.eq_of_testBit_eq
  intro j
  simp only [Nat.testBit_xor, Nat.testBit_shiftLeft, Nat.testBit_shiftRight,
    Nat.testBit_mod_two_pow]
  by_cases hj : j < 8
  · have h8 : ¬ 8 ≤ j := by omega
    simp [h8, hj]
  · have h8 : 8 ≤ j := by omega
    have hj8 : 8 + (j - 8) = j := by omega
    simp [h8, hj, hj8]

theorem shiftRight8_lt {t : Nat} (h : t < 2 ^ 16) : t >>> 8 < 256 := by
  rw [Nat.shiftRight_eq_div_pow]
  have h8 : (2 : Nat) ^ 8 = 256 := by norm_num
  have h16 : (2 : Nat) ^ 16 = 65536 := by norm_num
  omega

/-- One byte of the table-driven loop equals eight canonical steps on the
register with the byte XORed into its high half. -/
theorem tableByte_eq {t b : Nat} (ht : t < 2 ^ 16) (hb : b < 256) :
    ((t <<< 8) ^^^ CRCCalculator.CRC16_CCITT_FALSE_TABLE.getD
        (((t >>> 8) ^^^ b) &&& 255) 0) &&& 65535 =
      iterateSteps crcBitStep 8 (t ^^^ (b <<< 8)) := by
  have h8 : (2 : Nat) ^ 8 = 256 := by norm_num
  have hidx : (t >>> 8) ^^^ b < 256 := by
    have h1 : t >>> 8 < 2 ^ 8 := by rw [h8]; exact shiftRight8_lt ht
    have h2 : b < 2 ^ 8 := by rw [h8]; exact hb
    have := Nat.xor_lt_two_pow h1 h2
    rwa [h8] at this
  have hmask : ((t >>> 8) ^^^ b) &&& 255 = (t >>> 8) ^^^ b := by
    rw [and255_eq_mod]
    exact Nat.mod_eq_of_lt hidx
  rw [hmask, table_getD _ hidx, crc16TableEntry_eq]
  have hsh : ((t >>> 8) ^^^ b) <<< 8 < 2 ^ 16 := by
    rw [Nat.shiftLeft_eq, h8]
    have h16 : (2 : Nat) ^ 16 = 65536 := by norm_num
    omega
  rw [Nat.mod_eq_of_lt hsh, and65535_eq_mod', xor_mod_two_pow,
    Nat.mod_eq_of_lt (iterate_crcBitStep_lt 7 _)]
  have hlow : (t <<< 8) % 2 ^ 16 = (t % 2 ^ 8) <<< 8 := by
    rw [Nat.shiftLeft_eq, Nat.shiftLeft_eq,
      show (2 : Nat) ^ 16 = 2 ^ 8 * 2 ^ 8 from by norm_num,
      Nat.mul_mod_mul_right]
  rw [hlow, xor_byte_decompose t b, iterate_crcBitStep_xor,
    iterate_small 8 (t % 2 ^ 8) (by
      have := Nat.mod_lt t (show 0 < 2 ^ 8 from by norm_num)
      have h16 : (2 : Nat) ^ 16 = 65536 := by norm_num
      omega)]
  exact Nat.xor_comm _ _

/-- Fold-level equivalence between the simulator loop and the table loop. -/
theorem crc_fold_eq :
    ∀ data : List Nat, Bytes data → ∀ s t : Nat, s % 2 ^ 16 = t → t < 2 ^ 16 →
      (data.foldl (fun crc byte =>
        iterateSteps UARTSimulator.calcStep 8 (crc ^^^ (byte <<< 8))) s) %
        2 ^ 16 =
      data.foldl (fun crc byte =>
        ((crc <<< 8) ^^^ CRCCalculator.CRC16_CCITT_FALSE_TABLE.getD
          (((crc >>> 8) ^^^ byte) &&& 0xFF) 0) &&& 0xFFFF) t := by
  intro data
  induction data with
  | nil =>
    intro _ s t h _
    simpa using h
  | cons b bs ih =>
    intro hbytes s t hst ht
    rw [List.foldl_cons, List.foldl_cons]
    have hb : b < 256 := hbytes b (List.mem_cons_self _ _)
    have hbs : Bytes bs := fun x hx => hbytes x (List.mem_cons_of_mem _ hx)
    apply ih hbs
    · rw [iterate_calcStep_mod, xor_mod_two_pow, hst,
        Nat.mod_eq_of_lt (show b <<< 8 < 2 ^ 16 by
          rw [Nat.shiftLeft_eq]
          have h8 : (2 : Nat) ^ 8 = 256 := by norm_num
          have h16 : (2 : Nat) ^ 16 = 65536 := by norm_num
          omega)]
      exact (tableByte_eq ht hb).symm
    · rw [and65535_eq_mod']
      exact Nat.mod_lt _ (by norm_num)

/-- The simulator's bitwise CRC equals the table-driven CRC on byte data. -/
theorem calculateCrc16_eq_crc16CcittFalse (data : List Nat) (h : Bytes data) :
    UARTSimulator.calculateCrc16 data = CRCCalculator.crc16CcittFalse data := by
  unfold UARTSimulator.calculateCrc16 CRCCalculator.crc16CcittFalse
  rw [and65535_eq_mod']
  exact crc_fold_eq data h 0xFFFF 0xFFFF (by norm_num) (by norm_num)

/-- Every burst-mode sample frame passes the EFuse validator. -/
theorem generateSampleFrame_validate (a : Nat) :
    EFuseDecoder.validate (generateSampleFrame a) = none := by
  have hmask : ∀ x : Nat, x &&& 255 < 256 := fun x => by
    rw [and255_eq_mod]
    exact Nat.mod_lt _ (by norm_num)
  have hbytes : Bytes ([0x01, 0x00, 0x02] ++ [(a >>> 8) &&& 0xFF, a &&& 0xFF]) := by
    intro b hb
    simp only [List.cons_append, List.nil_append, List.mem_cons,
      List.not_mem_nil, or_false] at hb
    rcases hb with h | h | h | h | h <;> subst h
    · norm_num
    · norm_num
    · norm_num
    · exact hmask _
    · exact hmask _
  have hcrc := calculateCrc16_eq_crc16CcittFalse _ hbytes
  have hlt : UARTSimulator.calculateCrc16
      ([0x01, 0x00, 0x02] ++ [(a >>> 8) &&& 0xFF, a &&& 0xFF]) < 65536 := by
    rw [hcrc]
    exact crc16CcittFalse_lt _
  rw [validate_eq_none_iff]
  have h1 : ¬ (generateSampleFrame a).length < 7 := by
    simp [generateSampleFrame]
  have h2 : (generateSampleFrame a).getD 0 0 = 0xAA := rfl
  have h3 : (generateSampleFrame a).getD
      ((generateSampleFrame a).length - 1) 0 = 0xBB := by
    simp [generateSampleFrame]
  have h4 : (generateSampleFrame a).length =
      7 + efuseDeclaredLength (generateSampleFrame a) := by
    simp [generateSampleFrame, efuseDeclaredLength]
  have hstored : efuseStoredCrc (generateSampleFrame a) =
      (((UARTSimulator.calculateCrc16
        ([0x01, 0x00, 0x02] ++ [(a >>> 8) &&& 0xFF, a &&& 0xFF]) >>> 8) &&& 255)
          <<< 8) |||
        (UARTSimulator.calculateCrc16
          ([0x01, 0x00, 0x02] ++ [(a >>> 8) &&& 0xFF, a &&& 0xFF]) &&& 255) := by
    simp [efuseStoredCrc, efuseDeclaredLength, generateSampleFrame]
  have hcomputed : efuseComputedCrc (generateSampleFrame a) =
      CRCCalculator.crc16CcittFalse
        [0x01, 0x00, 0x02, (a >>> 8) &&& 0xFF, a &&& 0xFF] := by
    simp [efuseComputedCrc, efuseDeclaredLength, generateSampleFrame]
  have h5 : efuseStoredCrc (generateSampleFrame a) =
      efuseComputedCrc (generateSampleFrame a) := by
    rw [hstored, hcomputed, recompose16_masked hlt]
    simpa using hcrc
  exact ⟨h1, h2, h3, h4, h5⟩

/-! ## Claims -/

/-- C7: `CRCCalculator.crc16CcittFalse` on the ASCII bytes of `"123456789"`
returns `0x29B1`, `CRCCalculator.crc32` on the same bytes returns
`0xCBF43926`, and both functions are deterministic: equal outputs on equal
inputs. -/
theorem crc_reference_vectors :
    CRCCalculator.crc16CcittFalse (asciiBytes "123456789") = 0x29B1 ∧
    CRCCalculator.crc32 (asciiBytes "123456789") = 0xCBF43926 ∧
    ∀ b1 b2 : List Nat, b1 = b2 →
      CRCCalculator.crc16CcittFalse b1 = CRCCalculator.crc16CcittFalse b2 ∧
      CRCCalculator.crc32 b1 = CRCCalculator.crc32 b2 := by
  refine ⟨by decide, by decide, ?_⟩
  rintro b1 b2 rfl
  exact ⟨rfl, rfl⟩

/-- Witness for C7: the determinism conjunct applied to the concrete input
`[0x31]`. -/
theorem crc_reference_vectors_witness :
    CRCCalculator.crc16CcittFalse [0x31] = CRCCalculator.crc16CcittFalse [0x31] ∧
    CRCCalculator.crc32 [0x31] = CRCCalculator.crc32 [0x31] :=
  crc_reference_vectors.2.2 [0x31] [0x31] rfl

/-- C8 counterexample: with an empty filter set the handle delivers every
message, so "delivered iff some filter in `F` matches" fails at `F = []`. -/
theorem can_filter_claim_counterexample :
    ¬ (CANHandle.passesFilters [] ⟨0x100, false, false, []⟩ = true ↔
        ∃ f ∈ ([] : List CanFilter),
          ((0x100 : Nat) &&& f.mask) = (f.id &&& f.mask) ∧
          (f.extended = none ∨ f.extended = some false)) := by
  simp [CANHandle.passesFilters]

/-- C8 (amended): a received CAN message is delivered to subscribers iff the
configured filter set is empty, or some filter `f` satisfies
`(msg.id & f.mask) = (f.id & f.mask)` and `f.extended ∈ {unset, msg.ext}`. -/
theorem can_filter_semantics (filters : List CanFilter) (msg : CANMessage) :
    CANHandle.passesFilters filters msg = true ↔
      (filters = [] ∨ ∃ f ∈ filters,
        (msg.id &&& f.mask) = (f.id &&& f.mask) ∧
        (f.extended = none ∨ f.extended = some msg.ext)) := by
  cases filters with
  | nil => simp [CANHandle.passesFilters]
  | cons f fs =>
    simp [CANHandle.passesFilters, CANHandle.filterMatches, List.any_eq_true]

/-- C3: `EFuseDecoder.validate` returns the code of the first failing check
in the specification's order (`FRAME_TOO_SHORT`, `INVALID_START_MARKER`,
`INVALID_END_MARKER`, `LENGTH_MISMATCH`, `CRC_MISMATCH`), every returned
error has severity `error`, and it returns `none` exactly on well-formed
frames. -/
theorem efuse_validate_order (raw : List Nat) :
    (EFuseDecoder.validate raw).map FrameError.code = efuseFirstError raw ∧
    (EFuseDecoder.validate raw).elim True (fun e => e.severity = Severity.error) ∧
    (EFuseDecoder.validate raw = none ↔ efuseWellFormed raw) := by
  have e3 : 4 + efuseDeclaredLength raw + 1 = 5 + efuseDeclaredLength raw := by
    omega
  have e4 : 4 + efuseDeclaredLength raw - 1 = 3 + efuseDeclaredLength raw := by
    omega
  have e5 : 1 + 1 + 2 + efuseDeclaredLength raw + 2 + 1 =
      7 + efuseDeclaredLength raw := by omega
  unfold EFuseDecoder.validate
  simp only [EFuseDecoder.MIN_FRAME_LENGTH, EFuseDecoder.START_MARKER,
    EFuseDecoder.END_MARKER,
    show (raw.getD 2 0 <<< 8) ||| raw.getD 3 0 = efuseDeclaredLength raw
      from rfl,
    e3, e4, e5]
  split_ifs with h1 h2 h3 h4 h5 <;>
    simp_all [efuseFirstError, efuseCheckList, efuseWellFormed,
      efuseStoredCrc, efuseComputedCrc]

/-- C9 counterexample: `CANHandle.write` does not reject a frame whose dlc
byte exceeds 8 — on `[0x00, 0x00, 0x07, 0xE0, 9]` (dlc = 9) it succeeds. -/
theorem can_write_dlc_counterexample :
    CANHandle.write [0x00, 0x00, 0x07, 0xE0, 9] ≠ none ∧
    ([0x00, 0x00, 0x07, 0xE0, 9] : List Nat).getD 4 0 > 8 := by decide

set_option linter.unusedVariables false in
/-- C1: for every `type ≤ 255` and payload of at most 65535 bytes,
`EFuseDecoder.decode` of `EFuseDecoder.encode` on the field list
`{type, payload}` yields a frame whose `type` and `payload` fields equal the
inputs and whose `checksum.valid` is `true`. -/
theorem efuse_roundtrip (type : Nat) (payload : List Nat)
    (htype : type ≤ 255) (hbytes : Bytes payload)
    (hlen : payload.length ≤ 65535) :
    ∃ enc d,
      EFuseDecoder.encode
        [{ name := "type", value := .num type, type := "uint8",
           raw := [], offset := 0 },
         { name := "payload", value := .bytes payload, type := "bytes",
           raw := [], offset := 0 }] = some enc ∧
      EFuseDecoder.decode enc = some d ∧
      (d.fields.find? fun f => f.name == "type").map FrameField.value =
        some (.num type) ∧
      (d.fields.find? fun f => f.name == "payload").map FrameField.value =
        some (.bytes payload) ∧
      d.checksum.map ChecksumInfo.valid = some true := by
  have hmod : type % 256 = type := Nat.mod_eq_of_lt (by omega)
  have hcrc : CRCCalculator.crc16CcittFalse
      ([type, (payload.length >>> 8) &&& 255, payload.length &&& 255] ++
        payload) < 65536 := crc16CcittFalse_lt _
  refine ⟨efuseFrameOf type payload (CRCCalculator.crc16CcittFalse
      ([type, (payload.length >>> 8) &&& 255, payload.length &&& 255] ++
        payload)), _, ?_,
    efuse_decode_frameOf type payload _ hlen hcrc, ?_, ?_, ?_⟩
  · unfold EFuseDecoder.encode efuseFrameOf
    simp [List.find?, EFuseDecoder.START_MARKER, EFuseDecoder.END_MARKER, hmod]
  · simp [List.find?]
  · simp [List.find?]
  · simp

/-- Witness for C1 at `type = 1`, `payload = [8, 0]`. -/
theorem efuse_roundtrip_witness :
    ∃ enc d,
      EFuseDecoder.encode
        [{ name := "type", value := .num 1, type := "uint8",
           raw := [], offset := 0 },
         { name := "payload", value := .bytes [8, 0], type := "bytes",
           raw := [], offset := 0 }] = some enc ∧
      EFuseDecoder.decode enc = some d ∧
      (d.fields.find? fun f => f.name == "type").map FrameField.value =
        some (.num 1) ∧
      (d.fields.find? fun f => f.name == "payload").map FrameField.value =
        some (.bytes [8, 0]) ∧
      d.checksum.map ChecksumInfo.valid = some true :=
  efuse_roundtrip 1 [8, 0] (by decide) (by intro b hb; simp at hb; omega)
    (by decide)

/-- C4: changing one byte of the CRC field of a well-formed EFuse frame to a
different value makes `validate` report `CRC_MISMATCH` while `decode` still
returns a frame, now with `checksum.valid = false`. -/
theorem efuse_crc_flip (raw : List Nat) (i v : Nat)
    (hbytes : Bytes raw)
    (hval : EFuseDecoder.validate raw = none)
    (hi : i = 4 + efuseDeclaredLength raw ∨ i = 5 + efuseDeclaredLength raw)
    (hv : v < 256) (hne : v ≠ raw.getD i 0) :
    (EFuseDecoder.validate (raw.set i v)).map FrameError.code =
      some "CRC_MISMATCH" ∧
    ∃ d, EFuseDecoder.decode (raw.set i v) = some d ∧
      d.checksum.map ChecksumInfo.valid = some false := by
  obtain ⟨h1, h2, h3, h4, h5⟩ := (validate_eq_none_iff raw).1 hval
  have hib : 4 + efuseDeclaredLength raw ≤ i ∧
      i ≤ 5 + efuseDeclaredLength raw := by
    rcases hi with h | h <;> omega
  have hlen' : (raw.set i v).length = raw.length := by simp
  have hg0 : (raw.set i v).getD 0 0 = 0xAA := by
    rw [getD_set_ne _ _ _ _ (by omega)]; exact h2
  have hglast : (raw.set i v).getD ((raw.set i v).length - 1) 0 = 0xBB := by
    rw [hlen', getD_set_ne _ _ _ _ (by omega)]; exact h3
  have hg2 : (raw.set i v).getD 2 0 = raw.getD 2 0 :=
    getD_set_ne _ _ _ _ (by omega)
  have hg3 : (raw.set i v).getD 3 0 = raw.getD 3 0 :=
    getD_set_ne _ _ _ _ (by omega)
  have hdecl' : efuseDeclaredLength (raw.set i v) = efuseDeclaredLength raw := by
    rw [show efuseDeclaredLength (raw.set i v) =
      ((raw.set i v).getD 2 0 <<< 8) ||| (raw.set i v).getD 3 0 from rfl,
      hg2, hg3]
    rfl
  have hcomp' : efuseComputedCrc (raw.set i v) = efuseComputedCrc raw := by
    unfold efuseComputedCrc
    rw [hdecl']
    have hds : (raw.set i v).drop 1 = (raw.drop 1).set (i - 1) v := by
      rw [List.drop_set, if_neg (by omega)]
    rw [hds, List.set_take, List.set_eq_of_length_le (by simp; omega)]
  have hstored : efuseStoredCrc (raw.set i v) ≠ efuseComputedCrc (raw.set i v) := by
    rw [hcomp', ← h5]
    unfold efuseStoredCrc
    rw [hdecl']
    rcases hi with hcase | hcase <;> subst hcase
    · rw [getD_set_self' _ _ _ (by omega), getD_set_ne _ _ _ _ (by omega)]
      intro heq
      have hlo : raw.getD (5 + efuseDeclaredLength raw) 0 < 256 :=
        getD_lt_of_bytes hbytes _
      have hx := congrArg (fun x => x >>> 8) heq
      simp only at hx
      rw [or_shift_extract_hi hlo, or_shift_extract_hi hlo] at hx
      exact hne hx
    · rw [getD_set_ne _ _ _ _ (by omega), getD_set_self' _ _ _ (by omega)]
      intro heq
      have hx := congrArg (fun x => x % 256) heq
      simp only at hx
      rw [or_shift_extract_lo hv,
        or_shift_extract_lo (getD_lt_of_bytes hbytes _)] at hx
      exact hne hx
  refine ⟨?_, ?_⟩
  · exact validate_code_of_crc_mismatch _ (by rw [hlen']; exact h1) hg0 hglast
      (by rw [hlen', hdecl']; exact h4) hstored
  · obtain ⟨d, hd, hcd⟩ := decode_checksum_of_struct (raw.set i v)
      (by rw [hlen']; exact h1) hg0 hglast (by rw [hlen', hdecl']; exact h4)
    exact ⟨d, hd, by rw [hcd]; simp [hstored]⟩

/-- Witness for C4: the frame `AA 01 00 02 08 00 5C 94 BB` with its first
CRC byte (index 6) changed to `0x00`. -/
theorem efuse_crc_flip_witness :
    (EFuseDecoder.validate
      (([0xAA, 0x01, 0x00, 0x02, 0x08, 0x00, 0x5C, 0x94, 0xBB] : List Nat).set
        6 0)).map FrameError.code = some "CRC_MISMATCH" ∧
    ∃ d, EFuseDecoder.decode
        (([0xAA, 0x01, 0x00, 0x02, 0x08, 0x00, 0x5C, 0x94, 0xBB] : List Nat).set
          6 0) = some d ∧
      d.checksum.map ChecksumInfo.valid = some false :=
  efuse_crc_flip [0xAA, 0x01, 0x00, 0x02, 0x08, 0x00, 0x5C, 0x94, 0xBB] 6 0
    (by intro b hb; simp at hb; omega) (by decide) (by decide) (by decide)
    (by decide)

/-- C10: the UART burst simulator's bitwise CRC,
`UARTSimulator.calculateCrc16`, agrees with the table-driven
`CRCCalculator.crc16CcittFalse` on every byte sequence; consequently each
burst-mode sample frame carries a CRC the EFuse validator accepts. -/
theorem uart_crc16_refines (data : List Nat) (hdata : Bytes data) :
    UARTSimulator.calculateCrc16 data = CRCCalculator.crc16CcittFalse data ∧
    ∀ adcValue : Nat,
      EFuseDecoder.validate (generateSampleFrame adcValue) = none :=
  ⟨calculateCrc16_eq_crc16CcittFalse data hdata, generateSampleFrame_validate⟩

/-- Witness for C10 at the reference input `"123"` and sample value 2048. -/
theorem uart_crc16_refines_witness :
    UARTSimulator.calculateCrc16 [0x31, 0x32, 0x33] =
      CRCCalculator.crc16CcittFalse [0x31, 0x32, 0x33] ∧
    EFuseDecoder.validate (generateSampleFrame 2048) = none :=
  ⟨(uart_crc16_refines [0x31, 0x32, 0x33]
      (by intro b hb; simp at hb; omega)).1,
   (uart_crc16_refines [] (by intro b hb; simp at hb)).2 2048⟩

/-- C2 counterexample: the nine-byte frame
`AA 01 00 02 08 00 5C 94 BB` (declared payload length 2) decodes
successfully, yet the claim's formula `total = 6 + length` calls its length
inconsistent, so the claimed equivalence fails there. -/
theorem efuse_decode_policy_counterexample :
    ¬ (EFuseDecoder.decode [0xAA, 0x01, 0x00, 0x02, 0x08, 0x00, 0x5C, 0x94, 0xBB] = none ↔
        (([0xAA, 0x01, 0x00, 0x02, 0x08, 0x00, 0x5C, 0x94, 0xBB] : List Nat).length < 7 ∨
         ([0xAA, 0x01, 0x00, 0x02, 0x08, 0x00, 0x5C, 0x94, 0xBB] : List Nat).getD 0 0 ≠ 0xAA ∨
         ([0xAA, 0x01, 0x00, 0x02, 0x08, 0x00, 0x5C, 0x94, 0xBB] : List Nat).getD 8 0 ≠ 0xBB ∨
         ([0xAA, 0x01, 0x00, 0x02, 0x08, 0x00, 0x5C, 0x94, 0xBB] : List Nat).length ≠
           6 + efuseDeclaredLength [0xAA, 0x01, 0x00, 0x02, 0x08, 0x00, 0x5C, 0x94, 0xBB])) := by
  decide

/-- C2 (amended): `EFuseDecoder.decode` returns `none` exactly when the
frame has fewer than 7 bytes, or its first byte is not `0xAA`, or its last
byte is not `0xBB`, or the declared payload length does not match the total
frame length under the formula `total = 7 + length`; a wrong CRC alone never
causes `none`. -/
theorem efuse_decode_policy (raw : List Nat) :
    EFuseDecoder.decode raw = none ↔
      (raw.length < 7 ∨ raw.getD 0 0 ≠ 0xAA ∨
        raw.getD (raw.length - 1) 0 ≠ 0xBB ∨
        raw.length ≠ 7 + efuseDeclaredLength raw) := by
  unfold EFuseDecoder.decode
  simp only [EFuseDecoder.MIN_FRAME_LENGTH, EFuseDecoder.START_MARKER,
    EFuseDecoder.END_MARKER]
  split_ifs with h1 h2 h3 <;>
    simp_all [efuseDeclaredLength] <;> omega

/-- C9 (amended): `CANHandle.write` fails exactly when the frame has fewer
than 5 bytes; a dlc byte above 8 is not rejected.  Otherwise it parses
`[id:u32 big-endian | dlc:u8 | data[dlc]]` (data truncated to the bytes
available), with `ext = id > 0x7FF` evaluated on the signed 32-bit view of
the id. -/
theorem can_write_spec (frame : List Nat) :
    (CANHandle.write frame = none ↔ frame.length < 5) ∧
    (CANHandle.write frame).all (fun m =>
      m.id == ((frame.getD 0 0 <<< 24) ||| (frame.getD 1 0 <<< 16) |||
        (frame.getD 2 0 <<< 8) ||| frame.getD 3 0) &&
      m.ext == decide ((0x7FF : Int) < toInt32 m.id) &&
      m.rtr == false &&
      m.data == (frame.drop 5).take (frame.getD 4 0)) = true := by
  unfold CANHandle.write
  split
  · simp_all
  · simp_all

theorem set_append_middle (done tail : List Nat) (x v : Nat) :
    (done ++ x :: tail).set done.length v = done ++ v :: tail := by
  rw [List.set_append_right _ _ (Nat.le_refl _)]
  simp

/-- Loop invariant of `cobsEncode`: the state is the finished output `done`,
a placeholder, and the current block; finishing the fold yields the
block-structured encoding. -/
theorem foldl_encStep (rest : List Nat) :
    ∀ done block : List Nat, block.length < 254 →
      encFinish (rest.foldl COBSDecoder.encStep
        ⟨done ++ 0 :: block, done.length, block.length + 1⟩) =
      done ++ cobsGo block rest := by
  induction rest with
  | nil =>
    intro done block _
    simp [encFinish, cobsGo, set_append_middle]
  | cons b rest ih =>
    intro done block hlen
    rw [List.foldl_cons]
    by_cases hb : b = 0
    · subst hb
      have hstep : COBSDecoder.encStep
          ⟨done ++ 0 :: block, done.length, block.length + 1⟩ 0 =
          ⟨(done ++ (block.length + 1) :: block) ++ 0 :: [],
            (done ++ (block.length + 1) :: block).length, 1⟩ := by
        simp [COBSDecoder.encStep, set_append_middle]
      rw [hstep]
      have h2 := ih (done ++ (block.length + 1) :: block) [] (by simp)
      simp only [List.length_nil, Nat.zero_add] at h2
      rw [h2]
      simp [cobsGo]
    · by_cases hfull : block.length + 2 = 255
      · have hstep : COBSDecoder.encStep
            ⟨done ++ 0 :: block, done.length, block.length + 1⟩ b =
            ⟨(done ++ 255 :: (block ++ [b])) ++ 0 :: [],
              (done ++ 255 :: (block ++ [b])).length, 1⟩ := by
          simp only [COBSDecoder.encStep, if_neg hb]
          have hab : (done ++ 0 :: block) ++ [b] = done ++ 0 :: (block ++ [b]) := by
            simp
          have hcond : block.length + 1 + 1 = 255 := by omega
          simp [hab, hcond, hfull, set_append_middle]
        rw [hstep]
        have h2 := ih (done ++ 255 :: (block ++ [b])) [] (by simp)
        simp only [List.length_nil, Nat.zero_add] at h2
        rw [h2]
        simp [cobsGo, hb, hfull]
      · have hstep : COBSDecoder.encStep
            ⟨done ++ 0 :: block, done.length, block.length + 1⟩ b =
            ⟨done ++ 0 :: (block ++ [b]), done.length,
              (block ++ [b]).length + 1⟩ := by
          simp only [COBSDecoder.encStep, if_neg hb]
          have hab : (done ++ 0 :: block) ++ [b] = done ++ 0 :: (block ++ [b]) := by
            simp
          have hcond : ¬ block.length + 1 + 1 = 255 := by omega
          simp [hab, hcond]
        rw [hstep]
        have h3 := ih done (block ++ [b]) (by simp; omega)
        rw [h3]
        simp [cobsGo, hb, hfull]

/-- Shows `cobsEncode` equals its block-structured view. -/
theorem cobsEncode_eq_cobsGo (data : List Nat) :
    COBSDecoder.cobsEncode data = cobsGo [] data := by
  have h := foldl_encStep data [] [] (by simp)
  simpa [encFinish, COBSDecoder.cobsEncode] using h

/-- The block-structured encoding is never empty. -/
theorem cobsGo_ne_nil (rest : List Nat) :
    ∀ block : List Nat, cobsGo block rest ≠ [] := by
  induction rest with
  | nil => intro block; simp [cobsGo]
  | cons b rest ih =>
    intro block
    rw [cobsGo]
    split_ifs <;> simp_all

/-- The block-structured encoding contains no zero byte. -/
theorem cobsGo_no_zero (rest : List Nat) :
    ∀ block : List Nat, 0 ∉ block → 0 ∉ cobsGo block rest := by
  induction rest with
  | nil =>
    intro block hblock
    simp [cobsGo, hblock]
  | cons b rest ih =>
    intro block hblock
    have h0 : 0 ∉ cobsGo [] rest := ih [] (by simp)
    rw [cobsGo]
    split_ifs with hb hfull
    · intro hmem
      simp only [List.mem_cons, List.mem_append] at hmem
      rcases hmem with h | h | h
      · omega
      · exact hblock h
      · exact h0 h
    · intro hmem
      simp only [List.mem_cons, List.mem_append, List.mem_singleton,
        List.not_mem_nil, or_false] at hmem
      rcases hmem with h | hmem2
      · omega
      rcases hmem2 with h2 | h
      · rcases h2 with h | h
        · exact hblock h
        · omega
      · exact h0 h
    · refine ih (block ++ [b]) ?_
      intro hmem
      rcases List.mem_append.1 hmem with h | h
      · exact hblock h
      · simp at h; omega

/-- Shows `cobsDecode` inverts the block-structured encoding. -/
theorem cobsDecode_cobsGo (rest : List Nat) :
    ∀ block : List Nat, block.length < 254 →
      COBSDecoder.cobsDecode (cobsGo block rest) = some (block ++ rest) := by
  induction rest with
  | nil =>
    intro block hlen
    rw [cobsGo, COBSDecoder.cobsDecode]
    simp [COBSDecoder.cobsDecode, hlen]
  | cons b rest ih =>
    intro block hlen
    rw [cobsGo]
    split_ifs with hb hfull
    · subst hb
      have hT := cobsGo_ne_nil rest []
      rw [COBSDecoder.cobsDecode]
      have hd : List.drop (block.length + 1 - 1) (block ++ cobsGo [] rest) =
          cobsGo [] rest := by
        simp
      have ht : List.take (block.length + 1 - 1) (block ++ cobsGo [] rest) =
          block := by
        simp
      rw [hd, ht, ih [] (by simp)]
      have hcond : block.length + 1 < 255 := by omega
      have hne : ¬ block.length + 1 = 0 := by omega
      simp [hcond, hne, hT]
    · have hT := cobsGo_ne_nil rest []
      have h254 : (block ++ [b]).length = 254 := by simp; omega
      rw [COBSDecoder.cobsDecode]
      simp only [show ((255 : Nat) - 1) = 254 from rfl]
      rw [List.drop_left' h254, List.take_left' h254, ih [] (by simp)]
      simp
    · rw [ih (block ++ [b]) (by simp; omega)]
      simp

/-- C5: for every byte sequence `b` (zeros and runs longer than 254 non-zero
bytes included), `cobsDecode (cobsEncode b) = b`, and the encoded form
contains no zero byte. -/
theorem cobs_roundtrip (b : List Nat) :
    COBSDecoder.cobsDecode (COBSDecoder.cobsEncode b) = some b ∧
    (COBSDecoder.cobsEncode b).contains 0 = false := by
  rw [cobsEncode_eq_cobsGo]
  refine ⟨by simpa using cobsDecode_cobsGo b [] (by simp), ?_⟩
  have h := cobsGo_no_zero b [] (by simp)
  simp only [List.contains_eq_any_beq, List.any_eq_false, beq_iff_eq]
  intro x hx hxx
  exact h (hxx ▸ hx)

/-- The SLIP decode loop inverts the encode of a single frame. -/
theorem slipDecodeGo_encode (b : List Nat) :
    SLIPDecoder.slipDecodeGo
      ((b.map fun byte =>
        if byte = SLIPDecoder.END then [SLIPDecoder.ESC, SLIPDecoder.ESC_END]
        else if byte = SLIPDecoder.ESC then [SLIPDecoder.ESC, SLIPDecoder.ESC_ESC]
        else [byte]).flatten ++ [SLIPDecoder.END]) false = some b := by
  simp only [SLIPDecoder.END, SLIPDecoder.ESC, SLIPDecoder.ESC_END,
    SLIPDecoder.ESC_ESC]
  induction b with
  | nil =>
    simp [SLIPDecoder.slipDecodeGo, SLIPDecoder.END]
  | cons x rest ih =>
    by_cases hx1 : x = 192
    · subst hx1
      simp [SLIPDecoder.slipDecodeGo, SLIPDecoder.END, SLIPDecoder.ESC,
        SLIPDecoder.ESC_END, SLIPDecoder.ESC_ESC, ih]
    · by_cases hx2 : x = 219
      · subst hx2
        simp [SLIPDecoder.slipDecodeGo, SLIPDecoder.END, SLIPDecoder.ESC,
          SLIPDecoder.ESC_END, SLIPDecoder.ESC_ESC, ih]
      · simp only [List.map_cons, List.flatten_cons, if_neg hx1, if_neg hx2,
          List.singleton_append, List.cons_append]
        rw [SLIPDecoder.slipDecodeGo]
        simp [hx1, hx2, ih, SLIPDecoder.END, SLIPDecoder.ESC]

/-- No byte emitted by the SLIP escape map is a raw `END`. -/
theorem slipEncode_body_no_end (b : List Nat) :
    ((b.map fun byte =>
      if byte = SLIPDecoder.END then [SLIPDecoder.ESC, SLIPDecoder.ESC_END]
      else if byte = SLIPDecoder.ESC then [SLIPDecoder.ESC, SLIPDecoder.ESC_ESC]
      else [byte]).flatten).contains SLIPDecoder.END = false := by
  simp only [SLIPDecoder.END, SLIPDecoder.ESC, SLIPDecoder.ESC_END,
    SLIPDecoder.ESC_ESC]
  induction b with
  | nil => simp
  | cons x rest ih =>
    by_cases hx1 : x = 192
    · subst hx1
      simp_all
    · by_cases hx2 : x = 219
      · subst hx2
        simp_all
      · simp_all [bne_iff_ne, Ne.symm]

/-- C6: for every byte sequence `b`, `slipDecode (slipEncode b) = b`, the
encoded form ends in a single trailing `END` (`0xC0`), and no `END` occurs
before that final byte. -/
theorem slip_roundtrip (b : List Nat) :
    SLIPDecoder.slipDecode (SLIPDecoder.slipEncode b) = some b ∧
    (SLIPDecoder.slipEncode b).getLast? = some SLIPDecoder.END ∧
    ((SLIPDecoder.slipEncode b).dropLast).contains SLIPDecoder.END = false := by
  refine ⟨slipDecodeGo_encode b, ?_, ?_⟩
  · simp [SLIPDecoder.slipEncode, List.getLast?_concat]
  · simpa [SLIPDecoder.slipEncode] using slipEncode_body_no_end b

end CommWatch
